import Mathlib

/-!
Verification of the fieldflow-reports aggregation engine and its collaborators.

The definitions below are a shallow embedding of the TypeScript sources:

* `src/hooks/useAIAnalysis.ts` — the aggregation engine (`allTransportItems`,
  `transportPatterns`, `routeAnalysis`'s `frequentRoutes`, `generateAIInsights`'s
  cost analysis, `transportEfficiency`);
* `src/hooks/useReports.ts` — the report lifecycle manager (`createReport`,
  `updateReport`, `deleteReport`);
* `src/components/PDFReport.tsx` — the export renderer's currency formatting
  (`sanitizeCost`, `formatNaira`).

JS numbers are modelled as exact rationals (`ℚ`); the one place where the code
can divide by zero (`generateAIInsights`'s `averagePerVisit`) is modelled with
an explicit `Option ℚ` so that the JS `NaN` outcome is visible.  JS `Map`s and
plain objects used as dictionaries are modelled as association lists with
insertion-order keys, which is exactly the iteration order JS guarantees.
JS `Array.prototype.sort` (a stable sort) is modelled with `List.insertionSort`,
which is stable for the comparator-induced preorders used here.
-/

namespace FieldflowReports

/-! ### JS runtime primitives -/

/-- JS `arr.reduce((a, b) => a + b, 0)` over a list of numbers. -/
def sumQ (l : List ℚ) : ℚ := l.foldl (· + ·) 0

/-- JS division `a / b`.  When `b = 0` the JS result is `NaN` (for `0 / 0`) or
`±Infinity`, i.e. not a finite number; both are modelled as `none`. -/
def jsDiv (a b : ℚ) : Option ℚ := if b = 0 then none else some (a / b)

/-- Code-unit comparison of strings (the order used by JS string comparison and,
for the ASCII/BMP data in this repository, by `localeCompare`); also the
chronological order of ISO-8601 `YYYY-MM-DD` date strings, matching the
`new Date(x).getTime()` comparators in the source. -/
def lexLe : List Char → List Char → Bool
  | [], _ => true
  | _ :: _, [] => false
  | a :: as, b :: bs =>
    if a.toNat < b.toNat then true
    else if b.toNat < a.toNat then false
    else lexLe as bs

theorem lexLe_cons (a b : Char) (as bs : List Char) :
    lexLe (a :: as) (b :: bs) = true ↔
      (a.toNat < b.toNat ∨ (a.toNat = b.toNat ∧ lexLe as bs = true)) := by
  simp only [lexLe]
  split
  · rename_i h; simp [h]
  · split
    · rename_i h1 h2; simp; omega
    · rename_i h1 h2
      have : a.toNat = b.toNat := by omega
      simp [this]

theorem lexLe_total (as bs : List Char) : lexLe as bs = true ∨ lexLe bs as = true := by
  induction as generalizing bs with
  | nil => left; rfl
  | cons a as ih =>
    cases bs with
    | nil => right; rfl
    | cons b bs =>
      rcases Nat.lt_trichotomy a.toNat b.toNat with h | h | h
      · left; rw [lexLe_cons]; exact Or.inl h
      · rcases ih bs with h' | h'
        · left; rw [lexLe_cons]; exact Or.inr ⟨h, h'⟩
        · right; rw [lexLe_cons]; exact Or.inr ⟨h.symm, h'⟩
      · right; rw [lexLe_cons]; exact Or.inl h

theorem lexLe_trans {as bs cs : List Char} (h1 : lexLe as bs = true)
    (h2 : lexLe bs cs = true) : lexLe as cs = true := by
  induction as generalizing bs cs with
  | nil => rfl
  | cons a as ih =>
    cases bs with
    | nil => simp [lexLe] at h1
    | cons b bs =>
      cases cs with
      | nil => simp [lexLe] at h2
      | cons c cs =>
        rw [lexLe_cons] at h1 h2 ⊢
        rcases h1 with h1 | ⟨h1e, h1r⟩
        · rcases h2 with h2 | ⟨h2e, h2r⟩
          · exact Or.inl (Nat.lt_trans h1 h2)
          · exact Or.inl (h2e ▸ h1)
        · rcases h2 with h2 | ⟨h2e, h2r⟩
          · exact Or.inl (h1e ▸ h2)
          · exact Or.inr ⟨h1e.trans h2e, ih h1r h2r⟩

/-! ### Insertion-order dictionaries (JS `Map` / plain-object accumulators)

The engine repeatedly uses the idiom

  if (!map.has(k)) map.set(k, init); update(map.get(k)!)

over a JS `Map` (or a plain object), whose iteration order is the insertion
order of first-seen keys.  `buildMap` folds that idiom over a list. -/

section AssocMap

variable {α β : Type}

/-- rewrite one entry's value in place when its key is `k` -/
def updEntry (k : String) (f : β → β) (p : String × β) : String × β :=
  if p.1 = k then (p.1, f p.2) else p

theorem updEntry_self (k : String) (f : β → β) (b : β) : updEntry k f (k, b) = (k, f b) := by
  simp [updEntry]

theorem updEntry_ne {a k : String} (h : a ≠ k) (f : β → β) (b : β) :
    updEntry k f (a, b) = (a, b) := by
  simp [updEntry, h]

/-- one `map.set`-style upsert: update in place when the key exists, append a
fresh entry (initialised from `init`) otherwise -/
def updateAssoc (m : List (String × β)) (k : String) (init : β) (f : β → β) :
    List (String × β) :=
  if (List.lookup k m).isSome then
    m.map (updEntry k f)
  else
    m ++ [(k, f init)]

/-- fold the upsert idiom over a list of records -/
def buildMap (key : α → String) (init : β) (upd : β → α → β) (xs : List α) :
    List (String × β) :=
  xs.foldl (fun m x => updateAssoc m (key x) init (fun b => upd b x)) []

theorem lookup_cons_self (a : String) (b : β) (m : List (String × β)) :
    List.lookup a ((a, b) :: m) = some b := by
  simp [List.lookup]

theorem lookup_cons_ne {k a : String} (h : k ≠ a) (b : β) (m : List (String × β)) :
    List.lookup k ((a, b) :: m) = List.lookup k m := by
  simp [List.lookup, beq_eq_false_iff_ne.mpr h]

theorem lookup_isSome_iff (k : String) (m : List (String × β)) :
    (List.lookup k m).isSome ↔ k ∈ m.map Prod.fst := by
  induction m with
  | nil => simp
  | cons p m ih =>
    obtain ⟨a, b⟩ := p
    by_cases h : k = a
    · subst h; simp [lookup_cons_self]
    · rw [lookup_cons_ne h]
      simp only [List.map_cons, List.mem_cons]
      rw [ih]
      simp [h]

theorem lookup_map_upd (k k' : String) (m : List (String × β)) (f : β → β) :
    List.lookup k' (m.map (updEntry k f)) =
      if k' = k then (List.lookup k' m).map f else List.lookup k' m := by
  induction m with
  | nil => by_cases h : k' = k <;> simp [h]
  | cons p m ih =>
    obtain ⟨a, b⟩ := p
    rw [List.map_cons]
    by_cases hak : a = k
    · subst hak
      rw [updEntry_self]
      by_cases hk' : k' = a
      · subst hk'; rw [lookup_cons_self, lookup_cons_self, if_pos rfl]; rfl
      · rw [lookup_cons_ne hk', lookup_cons_ne hk', ih]
    · rw [updEntry_ne hak]
      by_cases hk' : k' = a
      · subst hk'
        rw [lookup_cons_self, lookup_cons_self, if_neg hak]
      · rw [lookup_cons_ne hk', lookup_cons_ne hk', ih]

theorem lookup_append_single (k k' : String) (m : List (String × β)) (v : β) :
    List.lookup k' (m ++ [(k, v)]) =
      match List.lookup k' m with
      | some b => some b
      | none => if k' = k then some v else none := by
  induction m with
  | nil =>
    by_cases h : k' = k
    · subst h; simp [lookup_cons_self]
    · simp [lookup_cons_ne h, h]
  | cons p m ih =>
    obtain ⟨a, b⟩ := p
    by_cases h : k' = a
    · subst h; simp [lookup_cons_self]
    · rw [List.cons_append, lookup_cons_ne h, lookup_cons_ne h, ih]

theorem lookup_updateAssoc (k k' : String) (m : List (String × β)) (init : β) (f : β → β) :
    List.lookup k' (updateAssoc m k init f) =
      if k' = k then some (f ((List.lookup k m).getD init)) else List.lookup k' m := by
  unfold updateAssoc
  by_cases hs : (List.lookup k m).isSome
  · rw [if_pos hs, lookup_map_upd]
    rcases Option.isSome_iff_exists.mp hs with ⟨b, hb⟩
    by_cases hk : k' = k
    · subst hk; simp [hb]
    · simp [hk]
  · rw [if_neg hs, lookup_append_single]
    have hnone : List.lookup k m = none := Option.not_isSome_iff_eq_none.mp hs
    by_cases hk : k' = k
    · subst hk; simp [hnone]
    · rw [if_neg hk]
      cases List.lookup k' m <;> simp [hk]

theorem keys_updateAssoc (k : String) (m : List (String × β)) (init : β) (f : β → β) :
    (updateAssoc m k init f).map Prod.fst =
      if k ∈ m.map Prod.fst then m.map Prod.fst else m.map Prod.fst ++ [k] := by
  unfold updateAssoc
  by_cases hs : (List.lookup k m).isSome
  · rw [if_pos hs, if_pos ((lookup_isSome_iff k m).mp hs), List.map_map]
    apply List.map_congr_left
    intro p _
    by_cases h : p.1 = k <;> simp [updEntry, h]
  · rw [if_neg hs, if_neg (fun hmem => hs ((lookup_isSome_iff k m).mpr hmem))]
    simp

theorem lookup_buildMap_step (key : α → String) (init : β) (upd : β → α → β)
    (xs : List α) (k : String) :
    ∀ m : List (String × β),
      List.lookup k (xs.foldl (fun m x => updateAssoc m (key x) init (fun b => upd b x)) m) =
        match List.lookup k m, xs.filter (fun x => key x = k) with
        | some b, fil => some (fil.foldl upd b)
        | none, [] => none
        | none, fil => some (fil.foldl upd init) := by
  induction xs with
  | nil =>
    intro m
    rw [List.foldl_nil]
    cases h : List.lookup k m <;> rfl
  | cons x xs ih =>
    intro m
    rw [List.foldl_cons, ih, lookup_updateAssoc]
    by_cases hx : key x = k
    · subst hx
      rw [if_pos rfl]
      simp only [List.filter_cons, eq_self_iff_true, decide_eq_true_eq, if_true]
      cases List.lookup (key x) m <;> simp [List.foldl_cons]
    · rw [if_neg (fun he => hx he.symm)]
      simp only [List.filter_cons, decide_eq_true_eq, if_neg hx]

theorem lookup_buildMap (key : α → String) (init : β) (upd : β → α → β)
    (xs : List α) (k : String) :
    List.lookup k (buildMap key init upd xs) =
      match xs.filter (fun x => key x = k) with
      | [] => none
      | fil => some (fil.foldl upd init) := by
  unfold buildMap
  rw [lookup_buildMap_step]
  cases xs.filter (fun x => key x = k) <;> rfl

/-- the keys of every dictionary built this way appear in the order in which
they are first seen in the input -/
def firstSeen (ks : List String) : List String :=
  ks.foldl (fun acc k => if k ∈ acc then acc else acc ++ [k]) []

theorem keys_buildMap_step (key : α → String) (init : β) (upd : β → α → β) (xs : List α) :
    ∀ m : List (String × β),
      (xs.foldl (fun m x => updateAssoc m (key x) init (fun b => upd b x)) m).map Prod.fst =
        (xs.map key).foldl (fun ks k => if k ∈ ks then ks else ks ++ [k]) (m.map Prod.fst) := by
  induction xs with
  | nil => intro m; rfl
  | cons x xs ih =>
    intro m
    rw [List.foldl_cons, ih, List.map_cons, List.foldl_cons, keys_updateAssoc]

theorem keys_buildMap (key : α → String) (init : β) (upd : β → α → β) (xs : List α) :
    (buildMap key init upd xs).map Prod.fst = firstSeen (xs.map key) := by
  unfold buildMap firstSeen
  rw [keys_buildMap_step]
  rfl

theorem firstSeen_nodup (ks : List String) :
    ∀ acc : List String, acc.Nodup →
      (ks.foldl (fun ks k => if k ∈ ks then ks else ks ++ [k]) acc).Nodup := by
  induction ks with
  | nil => intro acc h; exact h
  | cons k ks ih =>
    intro acc h
    rw [List.foldl_cons]
    by_cases hk : k ∈ acc
    · rw [if_pos hk]; exact ih acc h
    · rw [if_neg hk]
      refine ih _ ?_
      simp [List.nodup_append, h, hk]

theorem keys_buildMap_nodup (key : α → String) (init : β) (upd : β → α → β) (xs : List α) :
    ((buildMap key init upd xs).map Prod.fst).Nodup := by
  rw [keys_buildMap]
  exact firstSeen_nodup _ [] List.nodup_nil

theorem mem_lookup_of_nodup (m : List (String × β)) (k : String) (b : β)
    (hnd : (m.map Prod.fst).Nodup) (hmem : (k, b) ∈ m) : List.lookup k m = some b := by
  induction m with
  | nil => simp at hmem
  | cons p m ih =>
    obtain ⟨a, c⟩ := p
    rw [List.map_cons, List.nodup_cons] at hnd
    rcases List.mem_cons.mp hmem with h | h
    · obtain ⟨rfl, rfl⟩ := Prod.mk.injEq .. ▸ h
      exact lookup_cons_self ..
    · have hka : k ≠ a := by
        rintro rfl
        exact hnd.1 (List.mem_map.mpr ⟨(k, b), h, rfl⟩)
      rw [lookup_cons_ne hka]
      exact ih hnd.2 h

/-- every entry of the dictionary is the fold of the group of input records
sharing its key, and such a group is nonempty -/
theorem mem_buildMap_eq (key : α → String) (init : β) (upd : β → α → β) (xs : List α)
    (k : String) (d : β) (hmem : (k, d) ∈ buildMap key init upd xs) :
    (xs.filter (fun x => key x = k)) ≠ [] ∧
      d = (xs.filter (fun x => key x = k)).foldl upd init := by
  have h := mem_lookup_of_nodup _ _ _ (keys_buildMap_nodup key init upd xs) hmem
  rw [lookup_buildMap] at h
  rcases hfe : xs.filter (fun x => key x = k) with _ | ⟨y, ys⟩
  · rw [hfe] at h; cases h
  · rw [hfe] at h
    refine ⟨by simp, ?_⟩
    exact (Option.some.injEq .. ▸ h).symm

end AssocMap

/-! ### The route-key separator

`routeAnalysis` joins the two endpoints of a pair into the map key
`from + " → " + to` and later recovers them with `route.split(' → ')`.
`splitSep` models that split on the character list of the key. -/

def splitSep : List Char → List (List Char)
  | ' ' :: '→' :: ' ' :: rest => [] :: splitSep rest
  | c :: rest =>
    match splitSep rest with
    | [] => [[c]]
    | p :: ps => (c :: p) :: ps
  | [] => [[]]

theorem splitSep_no_sep (cs : List Char) (h : '→' ∉ cs) : splitSep cs = [cs] := by
  induction cs with
  | nil => rfl
  | cons c rest ih =>
    have hrest : '→' ∉ rest := fun hm => h (List.mem_cons_of_mem _ hm)
    rw [splitSep.eq_def]
    split
    · rename_i heq
      exfalso
      rw [List.cons.injEq] at heq
      obtain ⟨rfl, heq⟩ := heq
      exact h (heq ▸ List.mem_cons_of_mem _ (List.mem_cons_self _ _))
    · rename_i c' rest' heq
      rw [List.cons.injEq] at heq
      obtain ⟨rfl, rfl⟩ := heq
      rw [ih hrest]
    · rename_i heq
      cases heq

theorem splitSep_append (as bs : List Char) (h : '→' ∉ as) :
    splitSep (as ++ (' ' :: '→' :: ' ' :: bs)) = as :: splitSep bs := by
  induction as with
  | nil => rfl
  | cons c as ih =>
    have has : '→' ∉ as := fun hm => h (List.mem_cons_of_mem _ hm)
    rw [List.cons_append, splitSep.eq_def]
    split
    · rename_i rest heq
      exfalso
      rw [List.cons.injEq] at heq
      obtain ⟨rfl, heq⟩ := heq
      cases as with
      | nil => simp at heq
      | cons a as' =>
        rw [List.cons_append, List.cons.injEq] at heq
        exact has (heq.1 ▸ List.mem_cons_self _ _)
    · rename_i c' rest' heq
      rw [List.cons.injEq] at heq
      obtain ⟨rfl, rfl⟩ := heq
      rw [ih has]
    · rename_i heq
      cases heq

theorem string_ext {a b : String} (h : a.data = b.data) : a = b := by
  cases a; cases b; exact congrArg String.mk h

/-! ### Data model (`src/types/report.ts`) -/

/-- one location-visit line item of a report -/
structure ReportItem where
  id : String
  location : String
  transportation : String
  cost : ℚ
deriving DecidableEq

/-- one submitted field-visit report; `reportType` is the TS union
`verification | recovery | post-disbursement` kept as a string -/
structure Report where
  id : String
  reportType : String
  reportDate : String
  description : String
  items : List ReportItem
  totalCost : ℚ
  accountNumber : String
  accountName : String
  bankName : String
  createdAt : String
deriving DecidableEq

/-! ### Aggregation engine (`src/hooks/useAIAnalysis.ts`) -/

/-- a report item tagged with its parent report's type, date and id, as
produced by the `allTransportItems` flatMap -/
structure TransItem where
  id : String
  location : String
  transportation : String
  cost : ℚ
  reportType : String
  reportDate : String
  reportId : String
deriving DecidableEq

def allTransportItems (reports : List Report) : List TransItem :=
  reports.flatMap fun r =>
    r.items.map fun it =>
      { id := it.id, location := it.location, transportation := it.transportation,
        cost := it.cost, reportType := r.reportType, reportDate := r.reportDate,
        reportId := r.id }

/-- one entry of a location's `visits` array -/
structure Visit where
  cost : ℚ
  transportation : String
  date : String
deriving DecidableEq

/-- the per-location accumulator of `transportPatterns`' `locationMap` -/
structure LocAgg where
  visits : List Visit
  totalCost : ℚ
deriving DecidableEq

def visitOfItem (it : TransItem) : Visit :=
  { cost := it.cost, transportation := it.transportation, date := it.reportDate }

def locUpd (d : LocAgg) (it : TransItem) : LocAgg :=
  { visits := d.visits ++ [visitOfItem it], totalCost := d.totalCost + it.cost }

def locationMap (items : List TransItem) : List (String × LocAgg) :=
  buildMap (fun it => it.location) ⟨[], 0⟩ locUpd items

inductive Trend
  | increasing
  | decreasing
  | stable
deriving DecidableEq

/-- JS `arr.reduce((a, b) => a + b, 0) / arr.length` -/
def avgOf (costs : List ℚ) : ℚ := sumQ costs / (costs.length : ℚ)

/-- the `costTrend` classification at `useAIAnalysis.ts:61-67` -/
def costTrendCalc (recentCosts olderCosts : List ℚ) : Trend :=
  if 2 ≤ recentCosts.length ∧ 2 ≤ olderCosts.length then
    if avgOf recentCosts > avgOf olderCosts * 1.1 then .increasing
    else if avgOf recentCosts < avgOf olderCosts * 0.9 then .decreasing
    else .stable
  else .stable

/-- sort of a location's visits by `new Date(date).getTime()` ascending;
dates are ISO `YYYY-MM-DD` strings, whose code-unit order is chronological -/
def dateLe (a b : Visit) : Prop := lexLe a.date.data b.date.data = true

instance : DecidableRel dateLe := fun a b =>
  inferInstanceAs (Decidable (lexLe a.date.data b.date.data = true))

def sortVisits (vs : List Visit) : List Visit := vs.insertionSort dateLe

/-- JS `sortedVisits.slice(-3).map(v => v.cost)` -/
def recentCostsOf (sorted : List Visit) : List ℚ :=
  (sorted.drop (sorted.length - 3)).map (·.cost)

/-- JS `sortedVisits.slice(0, 3).map(v => v.cost)` -/
def olderCostsOf (sorted : List Visit) : List ℚ :=
  (sorted.take 3).map (·.cost)

structure TransportPattern where
  location : String
  visitCount : ℕ
  totalCost : ℚ
  averageCost : ℚ
  transportationTypes : List (String × ℕ)
  lastVisited : String
  costTrend : Trend
  efficiency : ℚ
  recommendations : List String
deriving DecidableEq

/-- the body of the map at `useAIAnalysis.ts:48-89` building one pattern from
one `locationMap` entry -/
def mkPattern (location : String) (data : LocAgg) : TransportPattern :=
  let visitCount := data.visits.length
  -- the divisor is the group size: every materialised entry has at least one visit
  let averageCost := data.totalCost / (visitCount : ℚ)
  let transportationTypes :=
    buildMap (fun v : Visit => v.transportation) 0 (fun n _ => n + 1) data.visits
  let sortedVisits := sortVisits data.visits
  let recentCosts := recentCostsOf sortedVisits
  let olderCosts := olderCostsOf sortedVisits
  let costTrend := costTrendCalc recentCosts olderCosts
  let efficiency := max 0 (100 - averageCost / 50)
  let recommendations :=
    (if averageCost > 2000 then ["Consider more cost-effective transportation options"]
     else []) ++
    (if visitCount < 3 then ["Limited visits - consider if this location is necessary"]
     else []) ++
    (if costTrend = Trend.increasing then ["Costs are increasing - monitor this location"]
     else [])
  { location := location, visitCount := visitCount, totalCost := data.totalCost,
    averageCost := averageCost, transportationTypes := transportationTypes,
    lastVisited := ((sortVisits data.visits).getLast?.map (·.date)).getD "",
    costTrend := costTrend, efficiency := efficiency, recommendations := recommendations }

/-- the output sort `(a, b) => b.visitCount - a.visitCount` (descending) -/
def byVisits (a b : TransportPattern) : Prop := b.visitCount ≤ a.visitCount

instance : DecidableRel byVisits := fun a b =>
  inferInstanceAs (Decidable (b.visitCount ≤ a.visitCount))

def transportPatterns (reports : List Report) : List TransportPattern :=
  ((locationMap (allTransportItems reports)).map (fun e => mkPattern e.1 e.2)).insertionSort
    byVisits

/-! #### Route analysis (`useAIAnalysis.ts:93-151`)

Only the `frequentRoutes` component is referenced by the claims; the coverage
map and the placeholder "optimal route" are presentation-only and omitted. -/

/-- the in-report sort `items.sort((a, b) => a.location.localeCompare(b.location))` -/
def locItemLe (a b : ReportItem) : Prop := lexLe a.location.data b.location.data = true

instance : DecidableRel locItemLe := fun a b =>
  inferInstanceAs (Decidable (lexLe a.location.data b.location.data = true))

instance : IsTotal ReportItem locItemLe :=
  ⟨fun a b => lexLe_total a.location.data b.location.data⟩

instance : IsTrans ReportItem locItemLe :=
  ⟨fun _ _ _ h1 h2 => lexLe_trans h1 h2⟩

def sortItems (items : List ReportItem) : List ReportItem := items.insertionSort locItemLe

/-- a `(from, to)` pair of lexicographically-adjacent items, carrying the
`from` item's cost (`fromLoc`/`toLoc` stand for the TS fields `from`/`to`) -/
structure RoutePair where
  fromLoc : String
  toLoc : String
  cost : ℚ
deriving DecidableEq

/-- pairs between adjacent entries of the location-sorted items: the loop
`for (i = 0; i < sortedItems.length - 1; i++)` -/
def adjacentPairs (items : List ReportItem) : List RoutePair :=
  let s := sortItems items
  (s.zip s.tail).map fun ab => ⟨ab.1.location, ab.2.location, ab.1.cost⟩

def routePairsOf (reports : List Report) : List RoutePair :=
  reports.flatMap fun r => adjacentPairs r.items

/-- the map key `from + " → " + to` -/
def routeKey (p : RoutePair) : String := p.fromLoc ++ " → " ++ p.toLoc

structure RouteAgg where
  frequency : ℕ
  totalCost : ℚ
  costs : List ℚ
deriving DecidableEq

def routeUpd (d : RouteAgg) (p : RoutePair) : RouteAgg :=
  { frequency := d.frequency + 1, totalCost := d.totalCost + p.cost,
    costs := d.costs ++ [p.cost] }

def routeMap (reports : List Report) : List (String × RouteAgg) :=
  buildMap routeKey ⟨0, 0, []⟩ routeUpd (routePairsOf reports)

structure FreqRoute where
  fromLoc : String
  toLoc : String
  frequency : ℕ
  averageCost : ℚ
  efficiency : ℚ
deriving DecidableEq

/-- JS `route.split(' → ')` -/
def splitArrow (s : String) : List String := (splitSep s.data).map String.mk

/-- one entry of `frequentRoutes` before sorting: `const [from, to] =
route.split(' → ')` and the average/efficiency computation -/
def mkFreqRoute (k : String) (d : RouteAgg) : FreqRoute :=
  -- the divisor is the pair's frequency: every materialised entry counted at least one pair
  let averageCost := d.totalCost / (d.frequency : ℚ)
  { fromLoc := (splitArrow k).getD 0 "", toLoc := (splitArrow k).getD 1 "",
    frequency := d.frequency, averageCost := averageCost,
    efficiency := max 0 (100 - averageCost / 50) }

/-- the output sort `(a, b) => b.frequency - a.frequency` (descending) -/
def byFreq (a b : FreqRoute) : Prop := b.frequency ≤ a.frequency

instance : DecidableRel byFreq := fun a b =>
  inferInstanceAs (Decidable (b.frequency ≤ a.frequency))

instance : IsTotal FreqRoute byFreq := ⟨fun a b => Nat.le_total b.frequency a.frequency⟩

instance : IsTrans FreqRoute byFreq := ⟨fun _ _ _ h1 h2 => Nat.le_trans h2 h1⟩

def sortedRoutes (reports : List Report) : List FreqRoute :=
  ((routeMap reports).map (fun e => mkFreqRoute e.1 e.2)).insertionSort byFreq

/-- `frequentRoutes` keeps `.slice(0, 10)` of the descending sort -/
def frequentRoutes (reports : List Report) : List FreqRoute :=
  (sortedRoutes reports).take 10

/-! #### Insights summary (`useAIAnalysis.ts:169-274`)

The claims reference the `costAnalysis` block; its three computed fields are
embedded, the remaining fields of `AIInsights` are display strings or fixed
multipliers outside any claim. -/

/-- JS `new Date(item.reportDate).toISOString().slice(0, 7)` for the ISO
`YYYY-MM-DD` date strings stored on reports: the first seven characters -/
def monthOf (date : String) : String := String.mk (date.data.take 7)

def monthUpd (acc : ℚ) (it : TransItem) : ℚ := acc + it.cost

def monthlyTotals (items : List TransItem) : List (String × ℚ) :=
  buildMap (fun it => monthOf it.reportDate) 0 monthUpd items

structure CostAnalysis where
  totalSpent : ℚ
  averagePerVisit : Option ℚ
  monthlyTrend : ℚ
deriving DecidableEq

/-- the `costAnalysis` fields of `generateAIInsights`: `averagePerVisit` is
`totalSpent / totalVisits` with no zero guard, so on an empty collection the
JS value is `NaN` (`0 / 0`), modelled as `none` -/
def generateAIInsights (reports : List Report) : CostAnalysis :=
  let items := allTransportItems reports
  let totalSpent := sumQ (items.map (·.cost))
  let totalVisits := items.length
  let averagePerVisit := jsDiv totalSpent (totalVisits : ℚ)
  let monthlyValues := (monthlyTotals items).map Prod.snd
  let monthlyTrend :=
    (monthlyValues.drop (monthlyValues.length - 2)).foldl (fun a b => b - a) 0
  { totalSpent := totalSpent, averagePerVisit := averagePerVisit,
    monthlyTrend := monthlyTrend }

/-! #### Transport-mode efficiency (`useAIAnalysis.ts:277-312`)

The templated `aiInsights` display strings are omitted (presentation-only). -/

structure ModeAgg where
  usage : ℕ
  totalCost : ℚ
  costs : List ℚ
deriving DecidableEq

def modeUpd (d : ModeAgg) (it : TransItem) : ModeAgg :=
  { usage := d.usage + 1, totalCost := d.totalCost + it.cost,
    costs := d.costs ++ [it.cost] }

def modeMap (items : List TransItem) : List (String × ModeAgg) :=
  buildMap (fun it => it.transportation) ⟨0, 0, []⟩ modeUpd items

structure TransportEfficiency where
  transportationType : String
  totalUsage : ℕ
  totalCost : ℚ
  averageCost : ℚ
  efficiency : ℚ
  recommendations : List String
deriving DecidableEq

def mkModeEff (k : String) (d : ModeAgg) : TransportEfficiency :=
  -- the divisor is the usage count: every materialised entry has at least one use
  let averageCost := d.totalCost / (d.usage : ℚ)
  let efficiency := max 0 (100 - averageCost / 100)
  { transportationType := k, totalUsage := d.usage, totalCost := d.totalCost,
    averageCost := averageCost, efficiency := efficiency,
    recommendations :=
      (if averageCost > 2000 then ["Consider more cost-effective alternatives"] else []) ++
      (if d.usage < 5 then
        ["Limited usage - evaluate if this transport type is necessary"] else []) }

/-- the output sort `(a, b) => b.efficiency - a.efficiency` (descending) -/
def byEffic (a b : TransportEfficiency) : Prop := b.efficiency ≤ a.efficiency

instance : DecidableRel byEffic := fun a b =>
  inferInstanceAs (Decidable (b.efficiency ≤ a.efficiency))

def transportEfficiency (reports : List Report) : List TransportEfficiency :=
  ((modeMap (allTransportItems reports)).map (fun e => mkModeEff e.1 e.2)).insertionSort
    byEffic

/-! ### Report lifecycle manager (`src/hooks/useReports.ts`)

The three mutations are modelled with explicit state passing: the Supabase
backend is a record of `reports` and `report_items` rows plus an id counter,
each operation returns the new backend state, its return value, the toasts it
raised and the list of persistence calls it performed (so that "performs no
persistence call" is a statement about the model, not an absence). -/

structure ReportDraft where
  reportType : String
  reportDate : String
  description : String
  totalCost : ℚ
  accountNumber : String
  accountName : String
  bankName : String
  items : List ReportItem
deriving DecidableEq

structure DbReportRow where
  id : String
  userId : String
  reportType : String
  reportDate : String
  description : String
  totalCost : ℚ
  accountNumber : String
  accountName : String
  bankName : String
deriving DecidableEq

structure DbItemRow where
  reportId : String
  location : String
  transportation : String
  cost : ℚ
deriving DecidableEq

structure Db where
  reports : List DbReportRow
  reportItems : List DbItemRow
  nextId : ℕ
deriving DecidableEq

structure Toast where
  title : String
  description : String
  destructive : Bool
deriving DecidableEq

structure OpOutcome (ρ : Type) where
  db : Db
  result : ρ
  toasts : List Toast
  persistenceCalls : List String

/-- `createReport` at `useReports.ts:73-138`: without a user it raises the
"Authentication Required" toast and returns `null`; otherwise it inserts the
report row, inserts the item rows when there are any, and refetches -/
def createReport (user : Option String) (db : Db) (rd : ReportDraft) :
    OpOutcome (Option String) :=
  match user with
  | none =>
    { db := db, result := none,
      toasts := [⟨"Authentication Required", "Please sign in to create reports.", true⟩],
      persistenceCalls := [] }
  | some uid =>
    let newId := toString db.nextId
    let row : DbReportRow :=
      { id := newId, userId := uid, reportType := rd.reportType,
        reportDate := rd.reportDate, description := rd.description,
        totalCost := rd.totalCost, accountNumber := rd.accountNumber,
        accountName := rd.accountName, bankName := rd.bankName }
    let db1 : Db := { db with reports := db.reports ++ [row], nextId := db.nextId + 1 }
    let db2 : Db :=
      if rd.items.length > 0 then
        { db1 with reportItems := db1.reportItems ++
            rd.items.map fun it => ⟨newId, it.location, it.transportation, it.cost⟩ }
      else db1
    { db := db2, result := some newId,
      toasts := [⟨"Report Created Successfully",
                  "Your field report has been saved to the database.", false⟩],
      persistenceCalls :=
        ["reports.insert"] ++
        (if rd.items.length > 0 then ["report_items.insert"] else []) ++
        ["reports.select"] }

/-- the `.update(...).eq('id', reportId).eq('user_id', user.id)` row rewrite -/
def updateRow (reportId uid : String) (rd : ReportDraft) (row : DbReportRow) : DbReportRow :=
  if row.id = reportId ∧ row.userId = uid then
    { row with
      reportType := rd.reportType, reportDate := rd.reportDate,
      description := rd.description, totalCost := rd.totalCost,
      accountNumber := rd.accountNumber, accountName := rd.accountName,
      bankName := rd.bankName }
  else row

/-- `updateReport` at `useReports.ts:141-212`: without a user it raises the
"Authentication Required" toast and returns `false`; otherwise it updates the
row scoped to the user, replaces all items (delete then insert), and refetches -/

def updateReport (user : Option String) (db : Db) (reportId : String) (rd : ReportDraft) :
    OpOutcome Bool :=
  match user with
  | none =>
    { db := db, result := false,
      toasts := [⟨"Authentication Required", "Please sign in to update reports.", true⟩],
      persistenceCalls := [] }
  | some uid =>
    let db1 : Db := { db with reports := db.reports.map (updateRow reportId uid rd) }
    let db2 : Db :=
      { db1 with reportItems := db1.reportItems.filter fun it => it.reportId ≠ reportId }
    let db3 : Db :=
      if rd.items.length > 0 then
        { db2 with reportItems := db2.reportItems ++
            rd.items.map fun it => ⟨reportId, it.location, it.transportation, it.cost⟩ }
      else db2
    { db := db3, result := true,
      toasts := [⟨"Report Updated Successfully", "Your field report has been updated.", false⟩],
      persistenceCalls :=
        ["reports.update", "report_items.delete"] ++
        (if rd.items.length > 0 then ["report_items.insert"] else []) ++
        ["reports.select"] }

/-- `deleteReport` at `useReports.ts:215-254`: without a user it raises the
"Authentication Required" toast and returns `false`; otherwise it deletes the
report scoped to the user (items cascade per the schema) and refetches -/
def deleteReport (user : Option String) (db : Db) (reportId : String) : OpOutcome Bool :=
  match user with
  | none =>
    { db := db, result := false,
      toasts := [⟨"Authentication Required", "Please sign in to delete reports.", true⟩],
      persistenceCalls := [] }
  | some uid =>
    let owned := db.reports.any fun row => row.id = reportId ∧ row.userId = uid
    let db1 : Db :=
      { db with
        reports := db.reports.filter fun row => ¬(row.id = reportId ∧ row.userId = uid),
        -- ON DELETE CASCADE on report_items.report_id (supabase migration)
        reportItems :=
          if owned then db.reportItems.filter fun it => it.reportId ≠ reportId
          else db.reportItems }
    { db := db1, result := true,
      toasts := [⟨"Report Deleted", "The report has been successfully deleted.", false⟩],
      persistenceCalls := ["reports.delete", "reports.select"] }

/-! ### Export renderer (`src/components/PDFReport.tsx:131-142`) -/

/-- a `number | string` cost as passed to `sanitizeCost`/`formatNaira` -/
inductive CostInput
  | num (q : ℚ)
  | str (s : String)
deriving DecidableEq

/-- JS `input.replace(/[^\d.]/g, '')`: keep only decimal digits and dots -/
def cleanCost (s : String) : String :=
  String.mk (s.data.filter fun c => c.isDigit || c = '.')

def digitsVal (ds : List Char) : ℕ :=
  ds.foldl (fun n c => 10 * n + (c.toNat - '0'.toNat)) 0

/-- JS `parseFloat` restricted to the digit-and-dot strings `cleanCost`
produces: the longest numeric prefix (`digits`, `digits.digits`, `digits.` or
`.digits`), and `none` for the JS `NaN` when no such prefix exists -/
def parseFloatJS (s : String) : Option ℚ :=
  let cs := s.data
  let intPart := cs.takeWhile Char.isDigit
  let rest := cs.dropWhile Char.isDigit
  match intPart, rest with
  | [], '.' :: r =>
    let frac := r.takeWhile Char.isDigit
    if frac.isEmpty then none
    else some ((digitsVal frac : ℚ) / (10 : ℚ) ^ frac.length)
  | [], _ => none
  | ds, '.' :: r =>
    let frac := r.takeWhile Char.isDigit
    some ((digitsVal ds : ℚ) + (digitsVal frac : ℚ) / (10 : ℚ) ^ frac.length)
  | ds, _ => some (digitsVal ds)

/-- `sanitizeCost`: strings are cleaned then parsed, with `parseFloat(...) || 0`
falling back to `0` on `NaN` (and mapping a parsed `0` to the same `0`);
numbers pass through unchanged -/
def sanitizeCost : CostInput → ℚ
  | .str s =>
    match parseFloatJS (cleanCost s) with
    | none => 0
    | some v => v
  | .num q => q

/-- comma separators every three digits, fed the reversed digit list -/
def groupRev : List Char → List Char
  | a :: b :: c :: d :: rest => a :: b :: c :: ',' :: groupRev (d :: rest)
  | l => l

def stripTrailingZeros (ds : List Char) : List Char :=
  (ds.reverse.dropWhile (· = '0')).reverse

/-- `Number.prototype.toLocaleString('en-NG')` on a finite number: grouped
integer digits, at most three fraction digits (default
`maximumFractionDigits`), rounding half away from zero -/
def toLocaleStringNG (q : ℚ) : String :=
  let sign := if q < 0 then "-" else ""
  let scaled : ℕ := (⌊|q| * 1000 + 1 / 2⌋).toNat
  let ip := scaled / 1000
  let fp := scaled % 1000
  let ipDigits := (groupRev (Nat.toDigits 10 ip).reverse).reverse
  let fpRaw := Nat.toDigits 10 fp
  let fpPadded := List.replicate (3 - fpRaw.length) '0' ++ fpRaw
  let fpDigits := stripTrailingZeros fpPadded
  String.mk (sign.data ++ ipDigits ++ (if fp = 0 then [] else '.' :: fpDigits))

/-- `formatNaira`: the fixed naira glyph prefixed to the locale-grouped value -/
def formatNaira (amount : CostInput) : String :=
  "₦" ++ toLocaleStringNG (sanitizeCost amount)

/-! ### The in-place sort inside `routeAnalysis` (`useAIAnalysis.ts:98-99`)

`report.items.sort(...)` is JS `Array.prototype.sort`, which sorts the array
in place: after `routeAnalysis` runs, every report object in the input
collection holds its items in location order.  This function is that
post-state of the collection. -/

def routeAnalysisSideEffect (reports : List Report) : List Report :=
  reports.map fun r => { r with items := sortItems r.items }

/-! ### Specification-side definitions

These restate, in the spec's own vocabulary, the quantities the claims talk
about, so the theorems below can compare the pipeline output against them. -/

/-- the visits the engine collects for one location: the flattened items
filtered to the location, in input order -/
def visitsOfLoc (reports : List Report) (loc : String) : List Visit :=
  ((allTransportItems reports).filter fun it => it.location = loc).map visitOfItem

/-- the spec's `costTrend` rule on the date-sorted cost list of one location:
last three costs against first three, classified by the 1.1 / 0.9 thresholds,
defaulting to `stable` when either window has fewer than two entries -/
def trendSpec (sortedCosts : List ℚ) : Trend :=
  let recent := sortedCosts.drop (sortedCosts.length - 3)
  let older := sortedCosts.take 3
  if 2 ≤ recent.length ∧ 2 ≤ older.length then
    if avgOf recent > avgOf older * 1.1 then .increasing
    else if avgOf recent < avgOf older * 0.9 then .decreasing
    else .stable
  else .stable

/-- all adjacency pairs whose endpoints are a given `(from, to)` pair -/
def matchingPairs (reports : List Report) (f t : String) : List RoutePair :=
  (routePairsOf reports).filter fun p => p.fromLoc = f ∧ p.toLoc = t

/-- a location that does not contain the route-key separator's arrow -/
def arrowFree (s : String) : Prop := '→' ∉ s.data

instance (s : String) : Decidable (arrowFree s) :=
  inferInstanceAs (Decidable ('→' ∉ s.data))

/-! ### Helper lemmas -/

theorem foldl_add_shift (l : List ℚ) : ∀ a : ℚ, l.foldl (· + ·) a = a + sumQ l := by
  induction l with
  | nil => intro a; simp [sumQ]
  | cons c l ih =>
    intro a
    rw [List.foldl_cons, ih]
    have h0 : sumQ (c :: l) = 0 + c + sumQ l := by
      rw [sumQ, List.foldl_cons, ih]
    rw [h0]
    ring

theorem sumQ_cons (c : ℚ) (l : List ℚ) : sumQ (c :: l) = c + sumQ l := by
  rw [sumQ, List.foldl_cons, foldl_add_shift]
  ring

theorem foldl_locUpd_visits (xs : List TransItem) :
    ∀ d : LocAgg, (xs.foldl locUpd d).visits = d.visits ++ xs.map visitOfItem := by
  induction xs with
  | nil => intro d; simp
  | cons x xs ih =>
    intro d
    rw [List.foldl_cons, ih]
    simp [locUpd]

theorem foldl_routeUpd_frequency (xs : List RoutePair) :
    ∀ d : RouteAgg, (xs.foldl routeUpd d).frequency = d.frequency + xs.length := by
  induction xs with
  | nil => intro d; simp
  | cons x xs ih =>
    intro d
    rw [List.foldl_cons, ih]
    simp [routeUpd]
    omega

theorem foldl_routeUpd_totalCost (xs : List RoutePair) :
    ∀ d : RouteAgg, (xs.foldl routeUpd d).totalCost = d.totalCost + sumQ (xs.map (·.cost)) := by
  induction xs with
  | nil => intro d; simp [sumQ]
  | cons x xs ih =>
    intro d
    rw [List.foldl_cons, ih, List.map_cons, sumQ_cons]
    simp [routeUpd]
    ring

theorem foldl_monthUpd (xs : List TransItem) :
    ∀ a : ℚ, xs.foldl monthUpd a = a + sumQ (xs.map (·.cost)) := by
  induction xs with
  | nil => intro a; simp [sumQ]
  | cons x xs ih =>
    intro a
    rw [List.foldl_cons, ih, List.map_cons, sumQ_cons]
    simp [monthUpd]
    ring

theorem mem_of_mem_insertionSort {γ : Type} {r : γ → γ → Prop} [DecidableRel r]
    {l : List γ} {x : γ} (hx : x ∈ l.insertionSort r) : x ∈ l :=
  (List.perm_insertionSort r l).mem_iff.mp hx

theorem mem_transportPatterns {reports : List Report} {p : TransportPattern}
    (hp : p ∈ transportPatterns reports) :
    ∃ k d, (k, d) ∈ locationMap (allTransportItems reports) ∧ p = mkPattern k d := by
  unfold transportPatterns at hp
  obtain ⟨e, he, rfl⟩ := List.mem_map.mp (mem_of_mem_insertionSort hp)
  exact ⟨e.1, e.2, he, rfl⟩

theorem mem_sortedRoutes {reports : List Report} {e : FreqRoute}
    (he : e ∈ sortedRoutes reports) :
    ∃ k d, (k, d) ∈ routeMap reports ∧ e = mkFreqRoute k d := by
  unfold sortedRoutes at he
  obtain ⟨q, hq, rfl⟩ := List.mem_map.mp (mem_of_mem_insertionSort he)
  exact ⟨q.1, q.2, hq, rfl⟩

theorem mem_transportEfficiency {reports : List Report} {t : TransportEfficiency}
    (ht : t ∈ transportEfficiency reports) :
    ∃ k d, (k, d) ∈ modeMap (allTransportItems reports) ∧ t = mkModeEff k d := by
  unfold transportEfficiency at ht
  obtain ⟨q, hq, rfl⟩ := List.mem_map.mp (mem_of_mem_insertionSort ht)
  exact ⟨q.1, q.2, hq, rfl⟩

theorem trendSpec_eq_calc (vs : List Visit) :
    trendSpec (vs.map (·.cost)) = costTrendCalc (recentCostsOf vs) (olderCostsOf vs) := by
  unfold trendSpec costTrendCalc recentCostsOf olderCostsOf
  rw [List.length_map, ← List.map_drop, ← List.map_take]

theorem pairwise_rel_take_drop {γ : Type} {r : γ → γ → Prop} :
    ∀ (l : List γ) (n : ℕ), l.Pairwise r → ∀ a ∈ l.take n, ∀ b ∈ l.drop n, r a b := by
  intro l
  induction l with
  | nil => intro n _ a ha; simp at ha
  | cons x l ih =>
    intro n hp a ha b hb
    cases n with
    | zero => simp at ha
    | succ m =>
      rw [List.take_succ_cons] at ha
      rw [List.drop_succ_cons] at hb
      rcases List.mem_cons.mp ha with rfl | ha'
      · exact (List.pairwise_cons.mp hp).1 b (List.drop_subset m l hb)
      · exact ih m (List.pairwise_cons.mp hp).2 a ha' b hb

theorem splitArrow_routeKey {f t : String} (hf : arrowFree f) (ht : arrowFree t) :
    splitArrow (f ++ " → " ++ t) = [f, t] := by
  unfold splitArrow
  have hsep : " → ".data = [' ', '→', ' '] := rfl
  have hdata : (f ++ " → " ++ t).data = f.data ++ (' ' :: '→' :: ' ' :: t.data) := by
    rw [String.data_append, String.data_append, hsep, List.append_assoc]
    rfl
  rw [hdata, splitSep_append _ _ hf, splitSep_no_sep _ ht]
  rfl

theorem routeKey_inj {p q : RoutePair}
    (hp1 : arrowFree p.fromLoc) (hp2 : arrowFree p.toLoc)
    (hq1 : arrowFree q.fromLoc) (hq2 : arrowFree q.toLoc)
    (h : routeKey p = routeKey q) : p.fromLoc = q.fromLoc ∧ p.toLoc = q.toLoc := by
  have hsplit := congrArg splitArrow h
  unfold routeKey at hsplit
  rw [splitArrow_routeKey hp1 hp2, splitArrow_routeKey hq1 hq2] at hsplit
  simp only [List.cons.injEq, and_true] at hsplit
  exact ⟨hsplit.1, hsplit.2⟩

theorem arrowFree_of_mem_routePairs {reports : List Report}
    (hAF : ∀ r ∈ reports, ∀ it ∈ r.items, arrowFree it.location)
    {p : RoutePair} (hp : p ∈ routePairsOf reports) :
    arrowFree p.fromLoc ∧ arrowFree p.toLoc := by
  unfold routePairsOf at hp
  obtain ⟨r, hr, hpr⟩ := List.mem_flatMap.mp hp
  unfold adjacentPairs at hpr
  obtain ⟨ab, hab, rfl⟩ := List.mem_map.mp hpr
  have h1 : ab.1 ∈ sortItems r.items := (List.of_mem_zip hab).1
  have h2 : ab.2 ∈ sortItems r.items := List.mem_of_mem_tail (List.of_mem_zip hab).2
  have m1 : ab.1 ∈ r.items := mem_of_mem_insertionSort h1
  have m2 : ab.2 ∈ r.items := mem_of_mem_insertionSort h2
  exact ⟨hAF r hr _ m1, hAF r hr _ m2⟩

/-! ### Concrete inputs for the scenario claims and witnesses -/

/-- a report with the defaulted fields the claims never look at -/
def mkReport (rid rdate : String) (items : List ReportItem) : Report :=
  { id := rid, reportType := "verification", reportDate := rdate, description := "",
    items := items, totalCost := 0, accountNumber := "", accountName := "",
    bankName := "", createdAt := "" }

def c2reports : List Report :=
  [mkReport "r1" "2024-02-01" [⟨"i1", "Apapa", "Bus", 500⟩],
   mkReport "r2" "2024-01-01" [⟨"i2", "Apapa", "Keke", 800⟩]]

def c2agg : LocAgg :=
  ⟨[⟨500, "Bus", "2024-02-01"⟩, ⟨800, "Keke", "2024-01-01"⟩], 1300⟩

/-- one location visited five times with costs 100, 100, 100, 5000, 5000 in
chronological order (the spec's §8 scenario) -/
def c3reports : List Report :=
  [mkReport "r1" "2024-01-01" [⟨"i1", "Lekki", "Bus", 100⟩],
   mkReport "r2" "2024-01-02" [⟨"i2", "Lekki", "Bus", 100⟩],
   mkReport "r3" "2024-01-03" [⟨"i3", "Lekki", "Bus", 100⟩],
   mkReport "r4" "2024-01-04" [⟨"i4", "Lekki", "Bus", 5000⟩],
   mkReport "r5" "2024-01-05" [⟨"i5", "Lekki", "Bus", 5000⟩]]

def c3sortedVisits : List Visit := sortVisits (visitsOfLoc c3reports "Lekki")

def c4reports : List Report :=
  [mkReport "r1" "2024-01-01"
     [⟨"i1", "B", "Bus", 100⟩, ⟨"i2", "A", "Keke", 200⟩, ⟨"i3", "C", "Taxi", 50⟩],
   mkReport "r2" "2024-01-02"
     [⟨"i4", "A", "Bus", 300⟩, ⟨"i5", "B", "Keke", 400⟩]]

/-- two items whose months appear in non-chronological first-seen order
(February before January) -/
def c5reports : List Report :=
  [mkReport "r1" "2024-02-10" [⟨"i1", "A", "Bus", 700⟩],
   mkReport "r2" "2024-01-05" [⟨"i2", "B", "Keke", 300⟩]]

def c6reports : List Report :=
  [mkReport "r1" "2024-01-01" [⟨"i1", "A", "Bus", 500⟩, ⟨"i2", "B", "Keke", 300⟩]]

/-- a mode used exactly once at cost 10000 (the spec's §8 scenario) -/
def c7reports : List Report :=
  [mkReport "r1" "2024-01-01" [⟨"i1", "HQ", "Taxi", 10000⟩]]

def c7agg : ModeAgg := ⟨1, 10000, [10000]⟩

/-- a report whose items are inserted in non-alphabetical order -/
def c10reports : List Report :=
  [mkReport "r1" "2024-01-01" [⟨"i1", "B", "Bus", 100⟩, ⟨"i2", "A", "Keke", 200⟩]]

/-! ### Claim theorems -/

/-- Claim C1.  On the empty report collection every aggregation-engine
function returns its defined empty result: the pattern list, the frequent
routes and the transport-efficiency list are empty, `totalSpent` is `0` and
`monthlyTrend` is `0`.  But `averagePerVisit` is `totalSpent / totalVisits`
with no zero guard, i.e. the JS value `0 / 0 = NaN` (modelled `none`) — not
the safe `0` the claim asserts.  This supports settling C1 as a code bug. -/
theorem c1_empty_collection_results :
    transportPatterns [] = [] ∧
    frequentRoutes [] = [] ∧
    transportEfficiency [] = [] ∧
    (generateAIInsights []).totalSpent = 0 ∧
    (generateAIInsights []).monthlyTrend = 0 ∧
    (generateAIInsights []).averagePerVisit = none ∧
    (generateAIInsights []).averagePerVisit ≠ some 0 := by
  have havg : (generateAIInsights []).averagePerVisit = none := by
    with_unfolding_all rfl
  refine ⟨rfl, rfl, rfl, by with_unfolding_all rfl, by with_unfolding_all rfl, havg, ?_⟩
  rw [havg]
  exact fun h => Option.noConfusion h

/-- Claim C3 counterexample.  For the five-visit scenario with costs
100, 100, 100, 5000, 5000 in chronological order, the spec's stated window
means are wrong: the recent-window mean is not 3400 and the older-window mean
is not 1066.7. -/
theorem c3_claimed_means_false :
    ¬ (avgOf (recentCostsOf c3sortedVisits) = 3400 ∧
       avgOf (olderCostsOf c3sortedVisits) = 1066.7) := by
  intro h
  have hr : avgOf (recentCostsOf c3sortedVisits) = 10100 / 3 := by
    with_unfolding_all rfl
  rw [hr] at h
  have h1 := h.1
  norm_num at h1

/-- Claim C3 as amended.  The recent window is the last three costs
`[100, 5000, 5000]` with mean `10100 / 3 ≈ 3366.67`, the older window is the
first three costs `[100, 100, 100]` with mean `100`, and the computed
`costTrend` is `increasing` (since `10100 / 3 > 100 × 1.1`). -/
theorem c3_actual_means_and_trend :
    avgOf (recentCostsOf c3sortedVisits) = 10100 / 3 ∧
    avgOf (olderCostsOf c3sortedVisits) = 100 ∧
    (transportPatterns c3reports).map (·.costTrend) = [Trend.increasing] := by
  refine ⟨?_, ?_, ?_⟩ <;> with_unfolding_all rfl

/-- Claim C8.  Without an authenticated user, `createReport`, `updateReport`
and `deleteReport` each perform no persistence call, leave the backend
unchanged, surface the "Authentication Required" error toast, and return
their failure value (`null` for create, `false` for update and delete). -/
theorem c8_unauthenticated_mutations (db : Db) (rd : ReportDraft) (rid : String) :
    (createReport none db rd).persistenceCalls = [] ∧
    (createReport none db rd).db = db ∧
    (createReport none db rd).result = none ∧
    (createReport none db rd).toasts =
      [⟨"Authentication Required", "Please sign in to create reports.", true⟩] ∧
    (updateReport none db rid rd).persistenceCalls = [] ∧
    (updateReport none db rid rd).db = db ∧
    (updateReport none db rid rd).result = false ∧
    (updateReport none db rid rd).toasts =
      [⟨"Authentication Required", "Please sign in to update reports.", true⟩] ∧
    (deleteReport none db rid).persistenceCalls = [] ∧
    (deleteReport none db rid).db = db ∧
    (deleteReport none db rid).result = false ∧
    (deleteReport none db rid).toasts =
      [⟨"Authentication Required", "Please sign in to delete reports.", true⟩] :=
  ⟨rfl, rfl, rfl, rfl, rfl, rfl, rfl, rfl, rfl, rfl, rfl, rfl⟩

/-- Claim C9.  String costs are sanitized by keeping exactly the digit and
dot characters, parse failure falls back to `0`, a successful parse is kept,
numeric inputs pass through unchanged, and the formatted output is the fixed
naira glyph prefixed to the locale-grouped value; three concrete evaluations
exercise a malformed string, an unparsable string, and digit grouping. -/
theorem c9_sanitize_and_format (s : String) (q : ℚ) :
    ((cleanCost s).data = s.data.filter (fun c => c.isDigit || c = '.')) ∧
    (parseFloatJS (cleanCost s) = none → sanitizeCost (.str s) = 0) ∧
    (∀ v, parseFloatJS (cleanCost s) = some v → sanitizeCost (.str s) = v) ∧
    sanitizeCost (.num q) = q ∧
    formatNaira (.str s) = "₦" ++ toLocaleStringNG (sanitizeCost (.str s)) ∧
    formatNaira (.num q) = "₦" ++ toLocaleStringNG q ∧
    sanitizeCost (.str "₦1,2a34.5em0") = 1234.5 ∧
    sanitizeCost (.str "abc") = 0 ∧
    formatNaira (.num 1234567) = "₦1,234,567" := by
  refine ⟨rfl, ?_, ?_, rfl, rfl, rfl, ?_, ?_, ?_⟩
  · intro h
    simp [sanitizeCost, h]
  · intro v h
    simp [sanitizeCost, h]
  · with_unfolding_all rfl
  · with_unfolding_all rfl
  · with_unfolding_all rfl

/-- Claim C10.  Computing the route analysis rewrites every report's items
with their location-sorted permutation (the in-place `items.sort`), so any
later consumer of the collection sees sorted items; at the concrete input the
original insertion order `[B, A]` is replaced by `[A, B]`. -/
theorem c10_route_analysis_mutates (reports : List Report) (i : ℕ)
    (hi : i < reports.length) :
    (∃ r₀ r₁, reports[i]? = some r₀ ∧
      (routeAnalysisSideEffect reports)[i]? = some r₁ ∧
      r₁.items = sortItems r₀.items ∧
      r₁.items.Perm r₀.items ∧
      List.Sorted locItemLe r₁.items) ∧
    (routeAnalysisSideEffect c10reports).map (fun r => r.items.map (·.location)) =
      [["A", "B"]] ∧
    c10reports.map (fun r => r.items.map (·.location)) = [["B", "A"]] := by
  refine ⟨?_, by with_unfolding_all rfl, by with_unfolding_all rfl⟩
  refine ⟨reports[i], { reports[i] with items := sortItems reports[i].items },
    List.getElem?_eq_getElem hi, ?_, rfl, ?_, ?_⟩
  · unfold routeAnalysisSideEffect
    rw [List.getElem?_map, List.getElem?_eq_getElem hi]
    rfl
  · exact List.perm_insertionSort locItemLe _
  · exact List.sorted_insertionSort locItemLe _

/-- Claim C10 witness at the concrete input. -/
theorem c10_route_analysis_mutates_witness :
    (∃ r₀ r₁, c10reports[0]? = some r₀ ∧
      (routeAnalysisSideEffect c10reports)[0]? = some r₁ ∧
      r₁.items = sortItems r₀.items ∧
      r₁.items.Perm r₀.items ∧
      List.Sorted locItemLe r₁.items) ∧
    (routeAnalysisSideEffect c10reports).map (fun r => r.items.map (·.location)) =
      [["A", "B"]] ∧
    c10reports.map (fun r => r.items.map (·.location)) = [["B", "A"]] :=
  c10_route_analysis_mutates c10reports 0 (by simp [c10reports])

/-- Claim C2.  For every location in the pattern output, `costTrend` is the
spec's rule applied to the date-sorted cost list of that location's visits:
last three costs against first three (overlapping windows when fewer than six
visits), `increasing`/`decreasing` at the 1.1/0.9 thresholds on the window
means, `stable` otherwise and whenever either window has fewer than two
entries. -/
theorem c2_costTrend_rule (reports : List Report) (p : TransportPattern)
    (hp : p ∈ transportPatterns reports) :
    p.costTrend = trendSpec ((sortVisits (visitsOfLoc reports p.location)).map (·.cost)) := by
  obtain ⟨k, d, hkd, rfl⟩ := mem_transportPatterns hp
  obtain ⟨hne, hd⟩ := mem_buildMap_eq _ _ _ _ _ _ hkd
  have hvis : d.visits = visitsOfLoc reports k := by
    rw [hd, foldl_locUpd_visits]
    simp [visitsOfLoc]
  have hloc : (mkPattern k d).location = k := rfl
  rw [hloc, ← hvis, trendSpec_eq_calc]
  rfl

/-- Claim C2 witness at a two-visit location whose dates arrive out of order. -/
theorem c2_costTrend_rule_witness :
    (mkPattern "Apapa" c2agg).costTrend =
      trendSpec ((sortVisits (visitsOfLoc c2reports "Apapa")).map (·.cost)) := by
  have hmem : mkPattern "Apapa" c2agg ∈ transportPatterns c2reports := by
    have h : transportPatterns c2reports = [mkPattern "Apapa" c2agg] := by
      with_unfolding_all rfl
    rw [h]
    exact List.mem_singleton_self _
  exact c2_costTrend_rule c2reports (mkPattern "Apapa" c2agg) hmem

/-- Claim C5.  The monthly buckets keep their keys in first-seen (insertion)
order over the flattened items, each bucket holds the sum of its month's item
costs, and `monthlyTrend` is `later - earlier` of the last two bucket values
in that insertion order (not in chronological order of the month keys). -/
theorem c5_monthlyTrend_insertion_order (reports : List Report)
    (h2 : 2 ≤ (monthlyTotals (allTransportItems reports)).length) :
    ((monthlyTotals (allTransportItems reports)).map Prod.fst =
      firstSeen ((allTransportItems reports).map fun it => monthOf it.reportDate)) ∧
    (∀ e ∈ monthlyTotals (allTransportItems reports),
      e.2 = sumQ (((allTransportItems reports).filter fun it =>
        monthOf it.reportDate = e.1).map (·.cost))) ∧
    (∃ x y,
      ((monthlyTotals (allTransportItems reports)).map Prod.snd).drop
        (((monthlyTotals (allTransportItems reports)).map Prod.snd).length - 2) = [x, y] ∧
      (generateAIInsights reports).monthlyTrend = y - x) := by
  refine ⟨keys_buildMap _ _ _ _, ?_, ?_⟩
  · intro e he
    obtain ⟨k, v⟩ := e
    obtain ⟨hne, hv⟩ := mem_buildMap_eq _ _ _ _ _ _ he
    rw [hv, foldl_monthUpd]
    simp
  · have hlen : ((monthlyTotals (allTransportItems reports)).map Prod.snd).length =
        (monthlyTotals (allTransportItems reports)).length := List.length_map _ _
    have hdl : (((monthlyTotals (allTransportItems reports)).map Prod.snd).drop
        (((monthlyTotals (allTransportItems reports)).map Prod.snd).length - 2)).length = 2 := by
      rw [List.length_drop, hlen]
      omega
    obtain ⟨x, y, hxy⟩ := List.length_eq_two.mp hdl
    refine ⟨x, y, hxy, ?_⟩
    have hdef : (generateAIInsights reports).monthlyTrend =
        (((monthlyTotals (allTransportItems reports)).map Prod.snd).drop
          (((monthlyTotals (allTransportItems reports)).map Prod.snd).length - 2)).foldl
          (fun a b => b - a) 0 := rfl
    rw [hdef, hxy]
    show y - (x - 0) = y - x
    ring

/-- Claim C5 witness: February is seen before January, so the trend is
`300 - 700 = -400`, the insertion-order difference. -/
theorem c5_monthlyTrend_witness :
    ((monthlyTotals (allTransportItems c5reports)).map Prod.fst =
      firstSeen ((allTransportItems c5reports).map fun it => monthOf it.reportDate)) ∧
    (∀ e ∈ monthlyTotals (allTransportItems c5reports),
      e.2 = sumQ (((allTransportItems c5reports).filter fun it =>
        monthOf it.reportDate = e.1).map (·.cost))) ∧
    (∃ x y,
      ((monthlyTotals (allTransportItems c5reports)).map Prod.snd).drop
        (((monthlyTotals (allTransportItems c5reports)).map Prod.snd).length - 2) = [x, y] ∧
      (generateAIInsights c5reports).monthlyTrend = y - x) :=
  c5_monthlyTrend_insertion_order c5reports (by with_unfolding_all exact Nat.le_refl 2)

/-- Claim C6.  With non-negative item costs, every efficiency score the
engine emits — per location, per route pair, and per transport mode — is
non-negative: the `max(0, ...)` clamp holds in all three formulas. -/
theorem c6_efficiency_nonneg (reports : List Report)
    (hc : ∀ r ∈ reports, ∀ it ∈ r.items, 0 ≤ it.cost) :
    (∀ p ∈ transportPatterns reports, 0 ≤ p.efficiency) ∧
    (∀ e ∈ frequentRoutes reports, 0 ≤ e.efficiency) ∧
    (∀ t ∈ transportEfficiency reports, 0 ≤ t.efficiency) := by
  refine ⟨?_, ?_, ?_⟩
  · intro p hp
    obtain ⟨k, d, _, rfl⟩ := mem_transportPatterns hp
    exact le_max_left 0 _
  · intro e he
    have he' : e ∈ sortedRoutes reports := (List.take_sublist _ _).subset he
    obtain ⟨k, d, _, rfl⟩ := mem_sortedRoutes he'
    exact le_max_left 0 _
  · intro t ht
    obtain ⟨k, d, _, rfl⟩ := mem_transportEfficiency ht
    exact le_max_left 0 _

/-- Claim C6 witness at a two-item collection with non-negative costs. -/
theorem c6_efficiency_nonneg_witness :
    (∀ p ∈ transportPatterns c6reports, 0 ≤ p.efficiency) ∧
    (∀ e ∈ frequentRoutes c6reports, 0 ≤ e.efficiency) ∧
    (∀ t ∈ transportEfficiency c6reports, 0 ≤ t.efficiency) :=
  c6_efficiency_nonneg c6reports (by
    intro r hr it hit
    simp only [c6reports, List.mem_singleton] at hr
    subst hr
    simp only [mkReport, List.mem_cons, List.mem_singleton, List.not_mem_nil] at hit
    rcases hit with rfl | rfl | hit
    · norm_num
    · norm_num
    · cases hit)

/-- Claim C7.  Transport-mode efficiency is `max(0, 100 - averageCost / 100)`
— divisor 100, unlike the per-location divisor 50 — for every emitted entry;
and a mode used exactly once at cost 10000 gets efficiency 0 (clamped). -/
theorem c7_transport_efficiency_formula (reports : List Report)
    (t : TransportEfficiency) (ht : t ∈ transportEfficiency reports) :
    t.efficiency = max 0 (100 - t.averageCost / 100) ∧
    (transportEfficiency c7reports).map
      (fun e => (e.transportationType, e.totalUsage, e.efficiency)) = [("Taxi", 1, 0)] := by
  constructor
  · obtain ⟨k, d, _, rfl⟩ := mem_transportEfficiency ht
    rfl
  · with_unfolding_all rfl

/-- Claim C7 witness at the single-use cost-10000 mode. -/
theorem c7_transport_efficiency_witness :
    (mkModeEff "Taxi" c7agg).efficiency =
      max 0 (100 - (mkModeEff "Taxi" c7agg).averageCost / 100) ∧
    (transportEfficiency c7reports).map
      (fun e => (e.transportationType, e.totalUsage, e.efficiency)) = [("Taxi", 1, 0)] := by
  have hmem : mkModeEff "Taxi" c7agg ∈ transportEfficiency c7reports := by
    have h : transportEfficiency c7reports = [mkModeEff "Taxi" c7agg] := by
      with_unfolding_all rfl
    rw [h]
    exact List.mem_singleton_self _
  exact c7_transport_efficiency_formula c7reports (mkModeEff "Taxi" c7agg) hmem

/-- Claim C4.  Route analysis pairs lexicographically-adjacent items of each
report's location-sorted items; aggregated per `(from, to)` key, every output
entry's frequency counts exactly the matching adjacency pairs across reports,
its average cost is the sum of the matching `from`-item costs divided by that
frequency, and the output is the descending-frequency top 10 (at most ten
entries, sorted, each dominating everything cut off).  Quantified over inputs
whose locations avoid the key separator's arrow, so that the `(from, to)`
pair and the string key determine each other. -/
theorem c4_frequent_routes (reports : List Report)
    (hAF : ∀ r ∈ reports, ∀ it ∈ r.items, arrowFree it.location) :
    (frequentRoutes reports).length ≤ 10 ∧
    (frequentRoutes reports).Pairwise (fun a b => b.frequency ≤ a.frequency) ∧
    (∀ a ∈ frequentRoutes reports, ∀ b ∈ (sortedRoutes reports).drop 10,
      b.frequency ≤ a.frequency) ∧
    (∀ e ∈ frequentRoutes reports,
      0 < e.frequency ∧
      e.frequency = (matchingPairs reports e.fromLoc e.toLoc).length ∧
      e.averageCost =
        sumQ ((matchingPairs reports e.fromLoc e.toLoc).map (·.cost)) / (e.frequency : ℚ)) := by
  have hsorted : (sortedRoutes reports).Pairwise byFreq :=
    List.sorted_insertionSort byFreq _
  refine ⟨List.length_take_le _ _, hsorted.sublist (List.take_sublist _ _), ?_, ?_⟩
  · intro a ha b hb
    exact pairwise_rel_take_drop _ 10 hsorted a ha b hb
  · intro e he
    have he' : e ∈ sortedRoutes reports := (List.take_sublist _ _).subset he
    obtain ⟨k, d, hkd, rfl⟩ := mem_sortedRoutes he'
    obtain ⟨hne, hd⟩ := mem_buildMap_eq _ _ _ _ _ _ hkd
    obtain ⟨p0, hp0⟩ :=
      List.exists_mem_of_ne_nil ((routePairsOf reports).filter fun p => routeKey p = k) hne
    have hp0mem : p0 ∈ routePairsOf reports := (List.mem_filter.mp hp0).1
    have hp0key : routeKey p0 = k := of_decide_eq_true (List.mem_filter.mp hp0).2
    obtain ⟨haf0f, haf0t⟩ := arrowFree_of_mem_routePairs hAF hp0mem
    have hsplitk : splitArrow k = [p0.fromLoc, p0.toLoc] := by
      rw [← hp0key]
      exact splitArrow_routeKey haf0f haf0t
    have hfrom : (mkFreqRoute k d).fromLoc = p0.fromLoc := by
      show (splitArrow k).getD 0 "" = p0.fromLoc
      rw [hsplitk]
      rfl
    have hto : (mkFreqRoute k d).toLoc = p0.toLoc := by
      show (splitArrow k).getD 1 "" = p0.toLoc
      rw [hsplitk]
      rfl
    have hfileq : ((routePairsOf reports).filter fun p => routeKey p = k) =
        matchingPairs reports p0.fromLoc p0.toLoc := by
      unfold matchingPairs
      apply List.filter_congr
      intro p hp
      obtain ⟨hafpf, hafpt⟩ := arrowFree_of_mem_routePairs hAF hp
      apply decide_eq_decide.mpr
      constructor
      · intro hk
        exact routeKey_inj hafpf hafpt haf0f haf0t (hk.trans hp0key.symm)
      · rintro ⟨h1, h2⟩
        rw [← hp0key]
        unfold routeKey
        rw [h1, h2]
    have hfreq : d.frequency =
        ((routePairsOf reports).filter fun p => routeKey p = k).length := by
      rw [hd, foldl_routeUpd_frequency]
      simp
    have htot : d.totalCost =
        sumQ ((((routePairsOf reports).filter fun p => routeKey p = k).map (·.cost))) := by
      rw [hd, foldl_routeUpd_totalCost]
      simp
    have hfrule : (mkFreqRoute k d).frequency = d.frequency := rfl
    have havg : (mkFreqRoute k d).averageCost = d.totalCost / (d.frequency : ℚ) := rfl
    refine ⟨?_, ?_, ?_⟩
    · rw [hfrule, hfreq]
      exact List.length_pos.mpr hne
    · rw [hfrule, hfreq, hfrom, hto, hfileq]
    · rw [havg, hfrule, hfreq, htot, hfrom, hto, hfileq]

/-- Claim C4 witness: two reports, pairs A→B (twice, costs 200 and 300) and
B→C (once, cost 100), with the arrow-free hypothesis discharged by
computation. -/
theorem c4_frequent_routes_witness :
    (frequentRoutes c4reports).length ≤ 10 ∧
    (frequentRoutes c4reports).Pairwise (fun a b => b.frequency ≤ a.frequency) ∧
    (∀ a ∈ frequentRoutes c4reports, ∀ b ∈ (sortedRoutes c4reports).drop 10,
      b.frequency ≤ a.frequency) ∧
    (∀ e ∈ frequentRoutes c4reports,
      0 < e.frequency ∧
      e.frequency = (matchingPairs c4reports e.fromLoc e.toLoc).length ∧
      e.averageCost =
        sumQ ((matchingPairs c4reports e.fromLoc e.toLoc).map (·.cost)) / (e.frequency : ℚ)) :=
  c4_frequent_routes c4reports (by decide)

end FieldflowReports
